import Mathlib

/-!
Verification development for the blind-aria listening trainer.

The Python source is shallowly embedded: pure helper functions become Lean
functions; the Streamlit/Supabase state becomes an explicit record `DB`
threaded through the database operations; Python `random` is modelled by a
deterministic stream of raw values (`Rng`), with `random.shuffle` embedded as
CPython's Fisher-Yates loop and `random.sample` as CPython's pool-based
partial-shuffle algorithm; fallible calls return `Option`/`Except`.
-/

namespace BlindAria

/-- Model of Python's `random` source: an infinite stream of raw draws plus a
cursor.  `random.seed(s)` corresponds to constructing `⟨f s, 0⟩` for the
seeding function `f` of the PRNG family. -/
structure Rng where
  stream : Nat → Nat
  idx : Nat

/-- Model of `random._randbelow n`: one raw draw reduced modulo `n`.
`n = 0` never occurs at the call sites embedded below. -/
def randbelow (r : Rng) (n : Nat) : Nat × Rng :=
  (if n = 0 then 0 else r.stream r.idx % n, ⟨r.stream, r.idx + 1⟩)

/-- The parallel assignment `x[i], x[j] = x[j], x[i]` of CPython's
`random.shuffle` body.  Out-of-bounds indices (which would raise in Python and
never occur at the embedded call sites) leave the list unchanged. -/
def listSwap (l : List α) (i j : Nat) : List α :=
  match l[i]?, l[j]? with
  | some a, some b => (l.set i b).set j a
  | _, _ => l

/-- CPython `random.shuffle` loop: `for i in reversed(range(1, len(x))):
j = randbelow(i+1); swap x[i] x[j]`.  The `Nat` argument is the current loop
index `i`, counting down to `1`. -/
def shuffleLoop : Rng → List α → Nat → List α × Rng
  | r, l, 0 => (l, r)
  | r, l, i + 1 =>
    let p := randbelow r (i + 2)
    shuffleLoop p.2 (listSwap l (i + 1) p.1) i

/-- Model of `random.shuffle` (in place in Python; returns the shuffled list
here). -/
def pyShuffle (r : Rng) (l : List α) : List α × Rng :=
  shuffleLoop r l (l.length - 1)

/-- CPython `random.sample` selection loop (the pool-based branch:
`j = randbelow(n-i); result[i] = pool[j]; pool[j] = pool[n-i-1]`).  The pool is
represented by its active prefix: the source writes `pool[j] = pool[n-i-1]`
and never reads an index `≥ n-i-1` again, which is `set j last` followed by
`dropLast` here.  CPython switches to a rejection-sampling branch for large
populations; both branches return `k` elements drawn from distinct positions,
and the pool branch is the one exercised for catalog-sized inputs. -/
def sampleLoop : Rng → List α → Nat → List α × Rng
  | r, _, 0 => ([], r)
  | r, pool, Nat.succ k =>
    match pool[(randbelow r pool.length).1]? with
    | none => ([], (randbelow r pool.length).2)
    | some x =>
      let rest := sampleLoop (randbelow r pool.length).2
        ((pool.set (randbelow r pool.length).1 (pool.getLast?.getD x)).dropLast) k
      (x :: rest.1, rest.2)

/-- Model of `random.sample(population, k)` (called in the source only with
`0 ≤ k < len(population)`). -/
def pySample (r : Rng) (population : List α) (k : Nat) : List α × Rng :=
  sampleLoop r population k

/-- One entry of a work's `videos` list: a dict with an optional `yt` field. -/
structure VideoRef where
  yt : Option String
deriving DecidableEq

/-- A catalog work, as loaded from `works.json` (`src/utils.py load_catalog`). -/
structure Work where
  id : String
  title : String
  composer : String
  aliases : List String
  videos : List VideoRef
deriving DecidableEq

/-- `MIN_VERSIONS_REQUIRED` from `src/config.py` / `src/app.py`. -/
def MIN_VERSIONS_REQUIRED : Nat := 3

/-- Python truthiness of `v.get("yt")`: present and a non-empty string. -/
def yt_truthy (v : VideoRef) : Bool :=
  match v.yt with
  | none => false
  | some s => !s.isEmpty

/-- `valid_video_ids` from `src/utils.py`:
`[v.get("yt") for v in work.get("videos", []) if v.get("yt")]`. -/
def valid_video_ids (w : Work) : List String :=
  (w.videos.filter yt_truthy).filterMap VideoRef.yt

/-- `has_min_versions` from `src/utils.py`. -/
def has_min_versions (w : Work) (n : Nat := MIN_VERSIONS_REQUIRED) : Bool :=
  decide ((valid_video_ids w).length ≥ n)

/-- `pick_versions_from_ids` from `src/utils.py` / `src/app.py`. -/
def pick_versions_from_ids (r : Rng) (video_ids : List String) (count : Nat) :
    List String × Rng :=
  let ids := video_ids.filter (fun x => !x.isEmpty)
  if ids.length ≤ count then pyShuffle r ids else pySample r ids count

/-- `pick_versions` from `src/utils.py` / `src/app.py`. -/
def pick_versions (r : Rng) (work : Work) (count : Nat) : List String × Rng :=
  pick_versions_from_ids r (valid_video_ids work) count

/-- The seed string `f"{current_work['id']}-{st.session_state.shuffle_seed}"`
used by the solo flow (`src/app.py`). -/
def seed_string (work_id : String) (gen : Nat) : String :=
  work_id ++ "-" ++ toString gen

/-- The seeded solo selection of `src/app.py`:
`random.seed(f"{id}-{seed}"); versions = pick_versions(work, count);
random.shuffle(versions)`.  `seedFn` is the PRNG family's seeding function
(seed string to raw-draw stream). -/
def solo_selection (seedFn : String → Nat → Nat) (work : Work) (gen count : Nat) :
    List String :=
  let r0 : Rng := ⟨seedFn (seed_string work.id gen), 0⟩
  let picked := pick_versions r0 work count
  (pyShuffle picked.2 picked.1).1

/-- Python `str.strip()` on the character list: drop leading and trailing
whitespace.  (Defined here at the data level because Lean's own `String.trim`
is not kernel-reducible.) -/
def pyStripL (l : List Char) : List Char :=
  ((l.dropWhile Char.isWhitespace).reverse.dropWhile Char.isWhitespace).reverse

/-- Python `str.strip()`. -/
def pyStrip (s : String) : String :=
  ⟨pyStripL s.data⟩

/-- Python `str.lower()` (ASCII case folding, as exercised by the catalog). -/
def pyLower (s : String) : String :=
  ⟨s.data.map Char.toLower⟩

/-- The `_search` index built by `load_catalog`:
`" ".join([title, composer, *aliases]).lower()`. -/
def searchText (w : Work) : String :=
  pyLower (String.intercalate " " ([w.title, w.composer] ++ w.aliases))

/-- Whether `needle` occurs as a contiguous sublist of `hay`. -/
def containsSubL (needle : List Char) : List Char → Bool
  | [] => needle.isEmpty
  | a :: t => List.isPrefixOf needle (a :: t) || containsSubL needle t

/-- Python substring containment `needle in hay` for strings. -/
def strContains (needle hay : String) : Bool :=
  containsSubL needle.data hay.data

/-- The search filter of `src/app.py` (also `src/ui/session.py`):
`matches = [w for w in ws if q.lower().strip() in w["_search"]] if q.strip()
else []`. -/
def search_matches (q : String) (ws : List Work) : List Work :=
  if pyStrip q = "" then []
  else ws.filter (fun w => strContains (pyStrip (pyLower q)) (searchText w))

/-- The eligibility filter
`[w for w in works if has_min_versions(w, MIN_VERSIONS_REQUIRED)]`. -/
def eligible_works (ws : List Work) : List Work :=
  ws.filter (fun w => has_min_versions w)

/-- Model of `random.choice(seq)`: `seq[randbelow(len(seq))]`; an empty
sequence raises in Python, modelled as `none`. -/
def random_choice (r : Rng) (l : List α) : Option (α × Rng) :=
  if l.isEmpty then none
  else (l[(randbelow r l.length).1]?).map (fun x => (x, (randbelow r l.length).2))

/-- `note_key_for` from `src/utils.py` / `src/app.py`: `f"{work_id}::{video_id}"`. -/
def note_key_for (work_id video_id : String) : String :=
  work_id ++ "::" ++ video_id

/-- Whether a character list contains two adjacent colons. -/
def hasDoubleColonL : List Char → Bool
  | [] => false
  | [_] => false
  | a :: b :: rest => (a == ':' && b == ':') || hasDoubleColonL (b :: rest)

/-- Whether a string contains the substring `"::"`. -/
def has_double_colon (s : String) : Bool :=
  hasDoubleColonL s.data

/-- Whether a character list ends with a colon. -/
def endsColonL : List Char → Bool
  | [] => false
  | [a] => a == ':'
  | _ :: rest => endsColonL rest

/-- Whether a string ends with the character `:`. -/
def ends_with_colon (s : String) : Bool :=
  endsColonL s.data

/-- The questionnaire payload saved by the `Save notes` handler in
`src/app.py` (fields and shape per the save site and §4.5 of the spec). -/
structure NotePayload where
  voice_production : List String
  language : List String
  style : List String
  meaning_intent : List String
  sense_making : List String
  transmission : String
  anchor : String
  impression : String
  comment : String
deriving DecidableEq

/-- A row of the `game_sessions` relation.  `owner_id` is optional because
`src/db.py create_party_session` inserts no `owner_id` field (the column is
then NULL), while `src/app.py create_party_session` sets it. -/
structure SessionRow where
  id : Nat
  owner_id : Option String
  title : String
  work_id : String
  video_ids : List String
deriving DecidableEq

/-- A row of the `session_members` relation. -/
structure MemberRow where
  session_id : Nat
  user_id : String
  role : String
deriving DecidableEq

/-- A row of the `session_notes` relation. -/
structure NoteRow where
  session_id : Nat
  user_id : String
  work_id : String
  video_id : String
  payload : NotePayload
deriving DecidableEq

/-- The remote store: the three relations plus the id allocator used to model
row-id generation for `game_sessions` inserts. -/
structure DB where
  sessions : List SessionRow
  members : List MemberRow
  notes : List NoteRow
  nextId : Nat
deriving DecidableEq

/-- The `session_members` select keyed by `(session_id, user_id)` used by
`ensure_member` / `get_member_role`. -/
def member_rows (db : DB) (sid : Nat) (uid : String) : List MemberRow :=
  db.members.filter (fun m => m.session_id == sid && m.user_id == uid)

/-- All `session_members` rows of one session. -/
def session_member_rows (db : DB) (sid : Nat) : List MemberRow :=
  db.members.filter (fun m => m.session_id == sid)

/-- Well-formedness of the id allocator: every membership row refers to an
already-allocated session id. -/
def db_wf (db : DB) : Prop :=
  ∀ m ∈ db.members, m.session_id < db.nextId

/-- `create_party_session` from `src/db.py`: inserts the session row (without
`owner_id`), then inserts the owner membership row only if `get_user_id()`
is truthy (`if owner_id:`).  `auth_user_id` models `get_user_id()`. -/
def create_party_session_db (db : DB) (auth_user_id : Option String)
    (title work_id : String) (video_ids : List String) : Nat × DB :=
  let sid := db.nextId
  let db1 : DB := { db with
    sessions := db.sessions ++ [⟨sid, none, title, work_id, video_ids⟩],
    nextId := db.nextId + 1 }
  match auth_user_id with
  | some uid =>
    if uid.isEmpty then (sid, db1)
    else (sid, { db1 with members := db1.members ++ [⟨sid, uid, "owner"⟩] })
  | none => (sid, db1)

/-- `create_party_session` from `src/app.py`: `owner_id` is an explicit
parameter, stored in the session row, and the owner membership row is always
inserted. -/
def create_party_session_app (db : DB) (owner_id title work_id : String)
    (video_ids : List String) : Nat × DB :=
  let sid := db.nextId
  let db1 : DB := { db with
    sessions := db.sessions ++ [⟨sid, some owner_id, title, work_id, video_ids⟩],
    nextId := db.nextId + 1 }
  (sid, { db1 with members := db1.members ++ [⟨sid, owner_id, "owner"⟩] })

/-- `ensure_member` from `src/db.py` / `src/app.py`: insert a `member` row
only when the `(session_id, user_id)` select comes back empty. -/
def ensure_member (db : DB) (sid : Nat) (uid : String) : DB :=
  if (member_rows db sid uid).isEmpty then
    { db with members := db.members ++ [⟨sid, uid, "member"⟩] }
  else db

/-- `ensure_member` called `n` times for the same pair. -/
def ensure_member_iter (db : DB) (sid : Nat) (uid : String) : Nat → DB
  | 0 => db
  | n + 1 => ensure_member (ensure_member_iter db sid uid n) sid uid

/-- `get_member_role` from `src/db.py`: `mem.data[0].get("role")` of the
keyed select, else `None`. -/
def get_member_role (db : DB) (sid : Nat) (uid : String) : Option String :=
  (member_rows db sid uid).head?.map MemberRow.role

/-- `load_party_session` from `src/db.py` / `src/app.py` (`.single()` modelled
as the first row of the keyed select). -/
def load_party_session (db : DB) (sid : Nat) : Option SessionRow :=
  (db.sessions.filter (fun s => s.id == sid)).head?

/-- The four-tuple key match used by the `session_notes` select and upsert. -/
def note_key_match (sid : Nat) (uid wid vid : String) (n : NoteRow) : Bool :=
  n.session_id == sid && n.user_id == uid && n.work_id == wid && n.video_id == vid

/-- The `session_notes` select keyed by the four-tuple. -/
def note_rows (db : DB) (sid : Nat) (uid wid vid : String) : List NoteRow :=
  db.notes.filter (note_key_match sid uid wid vid)

/-- `upsert_note` from `src/db.py` / `src/app.py`:
`upsert(..., on_conflict="session_id,user_id,work_id,video_id")` — insert if
no row has the key, otherwise replace the payload of the conflicting row(s). -/
def upsert_note (db : DB) (sid : Nat) (uid wid vid : String)
    (payload : NotePayload) : DB :=
  if (note_rows db sid uid wid vid).isEmpty then
    { db with notes := db.notes ++ [⟨sid, uid, wid, vid, payload⟩] }
  else
    { db with notes := db.notes.map (fun n =>
        if note_key_match sid uid wid vid n then { n with payload := payload }
        else n) }

/-- `load_note` from `src/db.py` / `src/app.py`: `res.data[0]["payload"]` of
the keyed select, else `None`. -/
def load_note (db : DB) (sid : Nat) (uid wid vid : String) : Option NotePayload :=
  (note_rows db sid uid wid vid).head?.map NoteRow.payload

/-- The owner gate of `src/app_old.py` (line 613):
`is_owner = (party_role == "owner") or (party_session.get("owner_id") ==
party_user_id)`. -/
def is_owner_gate_old (party_role : Option String) (sess : SessionRow)
    (uid : String) : Bool :=
  party_role == some "owner" || sess.owner_id == some uid

/-- The owner gate of `src/ui/session.py owner_controls_ui` (line 71):
`is_owner = party_session.get("owner_id") == party_user_id` — the membership
role is not consulted. -/
def is_owner_gate_ui (sess : SessionRow) (uid : String) : Bool :=
  sess.owner_id == some uid

/-- The oEmbed endpoint's successful HTTP response: status code plus the JSON
record `{title, author_name, thumbnail_url}` it carries (spec §6). -/
structure OembedResponse where
  status_code : Nat
  body_title : String
  body_author_name : String
  body_thumbnail_url : String
deriving DecidableEq

/-- The Python exceptions that the external calls inside `yt_oembed` can
raise: `requests.get` raises `requests.RequestException` subclasses, and
`Response.json()` raises `requests.exceptions.JSONDecodeError`, also a
`RequestException` subclass. -/
inductive PyExc where
  | requestException
deriving DecidableEq

/-- The `try:` body of `yt_oembed` (`src/utils.py` / `src/app.py`): perform the
request, return `None` unless the status is 200, else the parsed JSON. -/
def yt_oembed_try (resp : Except PyExc OembedResponse) :
    Except PyExc (Option OembedResponse) :=
  match resp with
  | .error e => .error e
  | .ok r => if r.status_code ≠ 200 then .ok none else .ok (some r)

/-- `yt_oembed` from `src/utils.py` / `src/app.py`: the `try` body with
`except requests.RequestException: return None`.  `resp` models the outcome of
`requests.get` (+ JSON decoding). -/
def yt_oembed (resp : Except PyExc OembedResponse) :
    Except PyExc (Option OembedResponse) :=
  match yt_oembed_try resp with
  | .error .requestException => .ok none
  | other => other

/-- Concrete work for tests: three valid takes plus one empty take
(spec §8 scenario A). -/
def wScenA : Work :=
  ⟨"w1", "Aria One", "Composer A", ["alias one"],
    [⟨some "a"⟩, ⟨some "b"⟩, ⟨some "c"⟩, ⟨some ""⟩]⟩

/-- Concrete work with a duplicated take identifier. -/
def wDupTakes : Work :=
  ⟨"w1", "Aria One", "Composer A", [], [⟨some "a"⟩, ⟨some "a"⟩, ⟨some "b"⟩]⟩

/-- Concrete work with only two valid takes (spec §8 scenario B). -/
def wScenB : Work :=
  ⟨"w2", "Aria Two", "Composer B", [], [⟨some "x"⟩, ⟨some "y"⟩]⟩

/-- A concrete raw-draw stream: the identity. -/
def rngId : Rng := ⟨fun i => i, 0⟩

/-- A concrete empty database. -/
def dbEmpty : DB := ⟨[], [], [], 0⟩

/-! ### Permutation facts about the shuffle and sample loops -/

/-- Replacing `t[m]` by `x` and consing the old `t[m]` in front permutes
`x :: t`. -/
theorem swap_cons_perm (t : List α) (m : Nat) (x b : α) (h : t[m]? = some b) :
    (b :: t.set m x).Perm (x :: t) := by
  induction t generalizing m with
  | nil => simp at h
  | cons y t ih =>
    cases m with
    | zero =>
      have hy : y = b := by simpa using h
      rw [hy]
      exact List.Perm.swap x b t
    | succ m =>
      simp only [List.getElem?_cons_succ] at h
      show (b :: y :: t.set m x).Perm (x :: y :: t)
      exact ((List.Perm.swap y b (t.set m x)).trans ((ih m h).cons y)).trans
        (List.Perm.swap x y t)

/-- A two-point exchange written with `set` is a permutation. -/
theorem set_set_perm (l : List α) (i j : Nat) (a b : α)
    (hi : l[i]? = some a) (hj : l[j]? = some b) : ((l.set i b).set j a).Perm l := by
  induction l generalizing i j with
  | nil => simp at hi
  | cons x t ih =>
    cases i with
    | zero =>
      have hx : x = a := by simpa using hi
      cases j with
      | zero =>
        have hxb : x = b := by simpa using hj
        show (((x :: t).set 0 b).set 0 a).Perm (x :: t)
        rw [← hx, ← hxb]
        exact List.Perm.refl (x :: t)
      | succ j =>
        simp only [List.getElem?_cons_succ] at hj
        show (b :: t.set j a).Perm (x :: t)
        rw [← hx]
        exact swap_cons_perm t j x b hj
    | succ i =>
      simp only [List.getElem?_cons_succ] at hi
      cases j with
      | zero =>
        have hxb : x = b := by simpa using hj
        show (a :: t.set i b).Perm (x :: t)
        rw [hxb]
        exact swap_cons_perm t i b a hi
      | succ j =>
        simp only [List.getElem?_cons_succ] at hj
        show (x :: (t.set i b).set j a).Perm (x :: t)
        exact (ih i j hi hj).cons x

/-- `listSwap` permutes its input. -/
theorem listSwap_perm (l : List α) (i j : Nat) : (listSwap l i j).Perm l := by
  rcases h1 : l[i]? with _ | a <;> rcases h2 : l[j]? with _ | b <;>
    simp only [listSwap, h1, h2]
  · exact List.Perm.refl l
  · exact List.Perm.refl l
  · exact List.Perm.refl l
  · exact set_set_perm l i j a b h1 h2

/-- The Fisher-Yates loop permutes its input. -/
theorem shuffleLoop_perm : ∀ (k : Nat) (r : Rng) (l : List α),
    ((shuffleLoop r l k).1).Perm l := by
  intro k
  induction k with
  | zero => intro r l; exact List.Perm.refl l
  | succ i ih =>
    intro r l
    simp only [shuffleLoop]
    exact (ih _ _).trans (listSwap_perm l (i + 1) _)

/-- `pyShuffle` returns a permutation of its input. -/
theorem pyShuffle_perm (r : Rng) (l : List α) : ((pyShuffle r l).1).Perm l :=
  shuffleLoop_perm _ r l

/-- Consing the last element onto `dropLast` permutes a non-empty list. -/
theorem getLast_cons_dropLast_perm (t : List α) (d : α) (h : t ≠ []) :
    ((t.getLast?.getD d) :: t.dropLast).Perm t := by
  induction t with
  | nil => exact absurd rfl h
  | cons y t ih =>
    cases t with
    | nil => simp
    | cons z t2 =>
      rw [List.getLast?_cons_cons]
      show (((z :: t2).getLast?.getD d) :: y :: (z :: t2).dropLast).Perm (y :: z :: t2)
      exact (List.Perm.swap y ((z :: t2).getLast?.getD d) _).trans
        ((ih (by simp)).cons y)

/-- One step of the sample loop: taking `pool[j]`, overwriting slot `j` with
the last element and dropping the last slot permutes the pool. -/
theorem sample_cons_perm (pool : List α) (j : Nat) (x : α) (h : pool[j]? = some x) :
    (x :: ((pool.set j (pool.getLast?.getD x)).dropLast)).Perm pool := by
  induction pool generalizing j x with
  | nil => simp at h
  | cons y t ih =>
    cases j with
    | zero =>
      have hy : y = x := by simpa using h
      cases t with
      | nil =>
        subst hy
        simp
      | cons z t2 =>
        rw [List.getLast?_cons_cons]
        show (x :: (((z :: t2).getLast?.getD x) :: (z :: t2).dropLast)).Perm (y :: z :: t2)
        rw [hy]
        exact (getLast_cons_dropLast_perm (z :: t2) x (by simp)).cons x
    | succ j2 =>
      simp only [List.getElem?_cons_succ] at h
      cases t with
      | nil => simp at h
      | cons z t2 =>
        rw [List.getLast?_cons_cons]
        have hset : ∃ w ws, (z :: t2).set j2 ((z :: t2).getLast?.getD x) = w :: ws := by
          cases j2 with
          | zero => exact ⟨_, _, rfl⟩
          | succ j3 => exact ⟨_, _, rfl⟩
        obtain ⟨w, ws, hws⟩ := hset
        have hstep := ih j2 x h
        rw [hws] at hstep
        show (x :: ((y :: (z :: t2).set j2 ((z :: t2).getLast?.getD x)).dropLast)).Perm
          (y :: z :: t2)
        rw [hws]
        show (x :: y :: (w :: ws).dropLast).Perm (y :: z :: t2)
        exact (List.Perm.swap y x _).trans (hstep.cons y)

/-- The sample loop returns `k` elements forming a sub-permutation of the
pool, whenever `k` does not exceed the pool size. -/
theorem sampleLoop_spec : ∀ (k : Nat) (r : Rng) (pool : List α), k ≤ pool.length →
    (sampleLoop r pool k).1.length = k ∧ List.Subperm (sampleLoop r pool k).1 pool := by
  intro k
  induction k with
  | zero => intro r pool _; exact ⟨rfl, List.nil_subperm⟩
  | succ k ih =>
    intro r pool h
    have hpos : 0 < pool.length := lt_of_lt_of_le (Nat.succ_pos k) h
    have hj : (randbelow r pool.length).1 < pool.length := by
      unfold randbelow
      simp only [Nat.pos_iff_ne_zero.mp hpos, if_false]
      exact Nat.mod_lt _ hpos
    have hx : pool[(randbelow r pool.length).1]? =
        some (pool.get ⟨(randbelow r pool.length).1, hj⟩) := by
      rw [List.getElem?_eq_getElem hj]
      rfl
    have hlen2 : ((pool.set (randbelow r pool.length).1
        (pool.getLast?.getD (pool.get ⟨(randbelow r pool.length).1, hj⟩))).dropLast).length =
        pool.length - 1 := by
      simp
    have hk : k ≤ ((pool.set (randbelow r pool.length).1
        (pool.getLast?.getD (pool.get ⟨(randbelow r pool.length).1, hj⟩))).dropLast).length := by
      rw [hlen2]; omega
    have IH := ih (randbelow r pool.length).2 _ hk
    have hperm := sample_cons_perm pool (randbelow r pool.length).1
      (pool.get ⟨(randbelow r pool.length).1, hj⟩) hx
    simp only [sampleLoop, hx]
    refine ⟨by simpa using IH.1, ?_⟩
    obtain ⟨u, hup, hus⟩ := IH.2
    exact List.Subperm.trans
      ⟨(pool.get ⟨(randbelow r pool.length).1, hj⟩) :: u, hup.cons _, hus.cons₂ _⟩
      hperm.subperm

/-! ### Take selection (claim C3) -/

/-- Every identifier produced by `valid_video_ids` is non-empty. -/
theorem mem_valid_video_ids_ne_empty {w : Work} {a : String}
    (h : a ∈ valid_video_ids w) : (!a.isEmpty) = true := by
  unfold valid_video_ids at h
  obtain ⟨v, hv, hyt⟩ := List.mem_filterMap.mp h
  have htr := (List.mem_filter.mp hv).2
  unfold yt_truthy at htr
  rw [hyt] at htr
  exact htr

/-- Re-filtering the already-filtered identifier list changes nothing. -/
theorem valid_video_ids_filter (w : Work) :
    (valid_video_ids w).filter (fun x => !x.isEmpty) = valid_video_ids w :=
  List.filter_eq_self.mpr (fun _ ha => mem_valid_video_ids_ne_empty ha)

/-- C3 (amended): with `E` the non-empty take identifiers of the work,
`pick_versions` returns a permutation of all of `E` when `|E| ≤ count`
(in particular the empty sequence when `E` is empty, without crashing), and
otherwise exactly `count` elements drawn from `E`, which are pairwise
distinct whenever `E` itself contains no duplicate identifier. -/
theorem claim_C3_pick_versions (r : Rng) (w : Work) (count : Nat) :
    ((valid_video_ids w).length ≤ count →
      ((pick_versions r w count).1).Perm (valid_video_ids w)) ∧
    (valid_video_ids w = [] → (pick_versions r w count).1 = []) ∧
    (count < (valid_video_ids w).length →
      (pick_versions r w count).1.length = count ∧
      (∀ x ∈ (pick_versions r w count).1, x ∈ valid_video_ids w) ∧
      ((valid_video_ids w).Nodup → (pick_versions r w count).1.Nodup)) := by
  have hperm : (valid_video_ids w).length ≤ count →
      ((pick_versions r w count).1).Perm (valid_video_ids w) := by
    intro hle
    unfold pick_versions pick_versions_from_ids
    simp only [valid_video_ids_filter w]
    rw [if_pos hle]
    exact pyShuffle_perm r (valid_video_ids w)
  refine ⟨hperm, ?_, ?_⟩
  · intro hnil
    have := hperm (by rw [hnil]; exact Nat.zero_le count)
    rw [hnil] at this
    exact List.Perm.eq_nil this
  · intro hlt
    unfold pick_versions pick_versions_from_ids
    simp only [valid_video_ids_filter w]
    rw [if_neg (Nat.not_le.mpr hlt)]
    have hspec := sampleLoop_spec count r (valid_video_ids w) (Nat.le_of_lt hlt)
    refine ⟨hspec.1, ?_, ?_⟩
    · intro x hx
      exact hspec.2.subset hx
    · intro hnd
      obtain ⟨u, hup, hus⟩ := hspec.2
      exact hup.nodup (hus.nodup hnd)

/-- C3 counterexample: on a work whose take list repeats an identifier, the
sample branch can return the same identifier twice, so the result is not a
list of `count` distinct elements as the claim states. -/
theorem claim_C3_counterexample :
    2 < (valid_video_ids wDupTakes).length ∧
    (pick_versions rngId wDupTakes 2).1 = ["a", "a"] ∧
    ¬ ((pick_versions rngId wDupTakes 2).1).Nodup := by decide

/-- C3 witness: the amended theorem applied to scenario A at count 5
(all three identifiers, permuted) and at count 2 (two distinct identifiers). -/
theorem claim_C3_witness :
    ((pick_versions rngId wScenA 5).1).Perm ["a", "b", "c"] ∧
    (pick_versions rngId wScenA 2).1.length = 2 ∧
    (pick_versions rngId wScenA 2).1.Nodup := by
  refine ⟨?_, ?_, ?_⟩
  · have h := (claim_C3_pick_versions rngId wScenA 5).1 (by decide)
    have he : valid_video_ids wScenA = ["a", "b", "c"] := by decide
    rw [he] at h
    exact h
  · exact ((claim_C3_pick_versions rngId wScenA 2).2.2 (by decide)).1
  · exact ((claim_C3_pick_versions rngId wScenA 2).2.2 (by decide)).2.2 (by decide)

/-! ### Seeded determinism (claim C4) -/

/-- C4: the seeded solo selection — seed the random source from
`(work_id, shuffle generation)`, pick versions, then shuffle — depends on the
random source only through the stream seeded from that pair: any two runs
whose seeding functions agree on `seed_string work_id gen` produce identical
ordered take lists.  In particular two runs with the same seeding function
(navigating away and back without reshuffling) coincide. -/
theorem claim_C4_seeded_determinism (f g : String → Nat → Nat) (work : Work)
    (gen count : Nat)
    (h : f (seed_string work.id gen) = g (seed_string work.id gen)) :
    solo_selection f work gen count = solo_selection g work gen count := by
  unfold solo_selection
  rw [h]

/-- C4 witness: two syntactically different seeding functions agreeing on the
seed string for `("w1", 1)` yield the same selection for scenario A. -/
theorem claim_C4_witness :
    solo_selection (fun _ i => i % 7) wScenA 1 5 =
      solo_selection (fun s i => if s = "w1-1" then i % 7 else i + 1) wScenA 1 5 :=
  claim_C4_seeded_determinism (fun _ i => i % 7)
    (fun s i => if s = "w1-1" then i % 7 else i + 1) wScenA 1 5 (by
      funext i
      rw [show seed_string wScenA.id 1 = "w1-1" from by decide]
      simp)

/-! ### Metadata lookup (claim C7) -/

/-- C7: `yt_oembed` returns the metadata record exactly on an HTTP 200
response, returns `None` on a non-200 status and on a request failure, and
never propagates an exception to its caller (the result is always an `ok`
value, never an `error`). -/
theorem claim_C7_yt_oembed (resp : Except PyExc OembedResponse) :
    (∃ v, yt_oembed resp = Except.ok v) ∧
    (∀ r, resp = Except.ok r → r.status_code = 200 →
      yt_oembed resp = Except.ok (some r)) ∧
    (∀ r, resp = Except.ok r → r.status_code ≠ 200 →
      yt_oembed resp = Except.ok none) ∧
    (∀ e, resp = Except.error e → yt_oembed resp = Except.ok none) := by
  rcases resp with e | r
  · cases e
    refine ⟨⟨none, rfl⟩, ?_, ?_, ?_⟩
    · intro r hr; cases hr
    · intro r hr; cases hr
    · intro e _; rfl
  · by_cases h200 : r.status_code = 200
    · refine ⟨⟨some r, ?_⟩, ?_, ?_, ?_⟩
      · simp [yt_oembed, yt_oembed_try, h200]
      · intro r2 hr2 _
        cases hr2
        simp [yt_oembed, yt_oembed_try, h200]
      · intro r2 hr2 hne
        cases hr2
        exact absurd h200 hne
      · intro e he; cases he
    · refine ⟨⟨none, ?_⟩, ?_, ?_, ?_⟩
      · simp [yt_oembed, yt_oembed_try, h200]
      · intro r2 hr2 h2
        cases hr2
        exact absurd h2 h200
      · intro r2 hr2 _
        cases hr2
        simp [yt_oembed, yt_oembed_try, h200]
      · intro e he; cases he

/-- C7 witness: the theorem applied to a concrete 200 response, a concrete
404 response and a concrete request failure. -/
theorem claim_C7_witness :
    yt_oembed (Except.ok ⟨200, "t", "ch", "th"⟩) =
      Except.ok (some ⟨200, "t", "ch", "th"⟩) ∧
    yt_oembed (Except.ok ⟨404, "t", "ch", "th"⟩) = Except.ok none ∧
    yt_oembed (Except.error PyExc.requestException) = Except.ok none := by
  refine ⟨?_, ?_, ?_⟩
  · exact (claim_C7_yt_oembed (Except.ok ⟨200, "t", "ch", "th"⟩)).2.1 _ rfl rfl
  · exact (claim_C7_yt_oembed (Except.ok ⟨404, "t", "ch", "th"⟩)).2.2.1 _ rfl (by decide)
  · exact (claim_C7_yt_oembed (Except.error PyExc.requestException)).2.2.2 _ rfl

/-! ### Catalog search (claim C8) -/

/-- C8: searching with an empty or whitespace-only query returns the empty
result set, and searching with a non-blank query returns exactly the works of
the searched list whose lowercase title+composer+aliases search text contains
the lowercased, trimmed query as a substring. -/
theorem claim_C8_search (q : String) (ws : List Work) :
    (pyStrip q = "" → search_matches q ws = []) ∧
    (pyStrip q ≠ "" → ∀ w, w ∈ search_matches q ws ↔
      w ∈ ws ∧ strContains (pyStrip (pyLower q)) (searchText w) = true) := by
  constructor
  · intro h
    unfold search_matches
    rw [if_pos h]
  · intro h w
    unfold search_matches
    rw [if_neg h]
    exact List.mem_filter

/-- C8 witness: the theorem applied to a whitespace query and to the query
`" Aria "` over the singleton catalog `[wScenA]`. -/
theorem claim_C8_witness :
    search_matches "  " [wScenA] = [] ∧
    (wScenA ∈ search_matches " Aria " [wScenA] ↔
      wScenA ∈ [wScenA] ∧
        strContains (pyStrip (pyLower " Aria ")) (searchText wScenA) = true) := by
  constructor
  · exact (claim_C8_search "  " [wScenA]).1 (by decide)
  · exact (claim_C8_search " Aria " [wScenA]).2 (by decide) wScenA

/-! ### Eligibility (claim C9) -/

/-- C9: a work with fewer than `MIN_VERSIONS_REQUIRED` non-empty take
identifiers is excluded by the eligibility filter, is never the result of the
random pick over the eligible list, and never belongs to a search result set
over the eligible list. -/
theorem claim_C9_ineligible_excluded (ws : List Work) (w : Work)
    (h : (valid_video_ids w).length < MIN_VERSIONS_REQUIRED) :
    w ∉ eligible_works ws ∧
    (∀ r x r2, random_choice r (eligible_works ws) = some (x, r2) → x ≠ w) ∧
    (∀ q, w ∉ search_matches q (eligible_works ws)) := by
  have hmem : w ∉ eligible_works ws := by
    intro hw
    have hmin := (List.mem_filter.mp hw).2
    unfold has_min_versions at hmin
    rw [decide_eq_true_iff] at hmin
    omega
  refine ⟨hmem, ?_, ?_⟩
  · intro r x r2 hx heq
    subst heq
    unfold random_choice at hx
    by_cases hemp : (eligible_works ws).isEmpty
    · rw [if_pos hemp] at hx
      cases hx
    · rw [if_neg hemp] at hx
      obtain ⟨y, hy, hxy⟩ := Option.map_eq_some'.mp hx
      have hx2 : x ∈ eligible_works ws := by
        cases hxy
        obtain ⟨hlt, he⟩ := List.getElem?_eq_some.mp hy
        exact he ▸ List.getElem_mem hlt
      exact hmem hx2
  · intro q hq
    unfold search_matches at hq
    by_cases hblank : pyStrip q = ""
    · rw [if_pos hblank] at hq
      cases hq
    · rw [if_neg hblank] at hq
      exact hmem (List.mem_filter.mp hq).1

/-- C9 witness: the theorem applied to scenario B (two valid takes) inside a
catalog that also holds scenario A. -/
theorem claim_C9_witness :
    wScenB ∉ eligible_works [wScenA, wScenB] :=
  (claim_C9_ineligible_excluded [wScenA, wScenB] wScenB (by decide)).1

/-! ### Session creation (claims C1 and C2) -/

/-- No pre-existing membership row refers to the about-to-be-allocated id. -/
theorem filter_members_nextId (db : DB) (hwf : db_wf db) :
    db.members.filter (fun m => m.session_id == db.nextId) = [] := by
  rw [List.filter_eq_nil_iff]
  intro m hm
  simp only [beq_iff_eq]
  exact Nat.ne_of_lt (hwf m hm)

/-- C1 (amended): session creation stores the session row and exactly one
membership row — with role `owner`, for the acting owner — for the new
session id.  This is unconditional for the `src/app.py` variant (which takes
`owner_id` as a parameter) and holds for the `src/db.py` variant provided
`get_user_id()` yields a non-empty user id. -/
theorem claim_C1_create_session (db : DB) (owner_id title work_id : String)
    (video_ids : List String) (hwf : db_wf db) (hid : owner_id ≠ "") :
    ((create_party_session_app db owner_id title work_id video_ids).1 = db.nextId ∧
      (⟨db.nextId, some owner_id, title, work_id, video_ids⟩ : SessionRow) ∈
        (create_party_session_app db owner_id title work_id video_ids).2.sessions ∧
      session_member_rows
        (create_party_session_app db owner_id title work_id video_ids).2
        db.nextId = [⟨db.nextId, owner_id, "owner"⟩]) ∧
    ((create_party_session_db db (some owner_id) title work_id video_ids).1 = db.nextId ∧
      (⟨db.nextId, none, title, work_id, video_ids⟩ : SessionRow) ∈
        (create_party_session_db db (some owner_id) title work_id video_ids).2.sessions ∧
      session_member_rows
        (create_party_session_db db (some owner_id) title work_id video_ids).2
        db.nextId = [⟨db.nextId, owner_id, "owner"⟩]) := by
  have hemp : owner_id.isEmpty = false := by
    rw [← Bool.not_eq_true]
    simpa [String.isEmpty_iff] using hid
  have hfil := filter_members_nextId db hwf
  constructor
  · refine ⟨rfl, ?_, ?_⟩
    · simp [create_party_session_app]
    · unfold create_party_session_app session_member_rows
      simp only [List.filter_append, hfil]
      simp
  · refine ⟨?_, ?_, ?_⟩
    · simp [create_party_session_db, hemp]
    · simp [create_party_session_db, hemp]
    · unfold create_party_session_db session_member_rows
      simp only [hemp, Bool.false_eq_true, if_false]
      simp only [List.filter_append, hfil]
      simp

/-- C1 counterexample: in the `src/db.py` variant, a successful call made
while `get_user_id()` returns `None` creates the session row but no
membership row at all — the created session has zero membership rows, not
exactly one `owner` row. -/
theorem claim_C1_counterexample :
    ((create_party_session_db dbEmpty none "t" "w1" ["a", "b", "c"]).2.sessions ≠ []) ∧
    session_member_rows (create_party_session_db dbEmpty none "t" "w1" ["a", "b", "c"]).2
      (create_party_session_db dbEmpty none "t" "w1" ["a", "b", "c"]).1 = [] := by
  decide

/-- C1 witness: the amended theorem applied to the empty database with owner
`"u1"`. -/
theorem claim_C1_witness :
    session_member_rows (create_party_session_app dbEmpty "u1" "t" "w1" ["a"]).2
      dbEmpty.nextId = [⟨dbEmpty.nextId, "u1", "owner"⟩] ∧
    session_member_rows (create_party_session_db dbEmpty (some "u1") "t" "w1" ["a"]).2
      dbEmpty.nextId = [⟨dbEmpty.nextId, "u1", "owner"⟩] := by
  have h := claim_C1_create_session dbEmpty "u1" "t" "w1" ["a"]
    (by intro m hm; cases hm) (by decide)
  exact ⟨h.1.2.2, h.2.2.2⟩

/-- C2: end-to-end evaluation at the failing input.  A session is created
through the `src/db.py` path by the logged-in user `"u1"`: the store then
holds an `owner` membership row for `"u1"`, and the session row carries no
`owner_id`.  The gating predicate claimed by the spec (and implemented by
`src/app_old.py`) is true for `"u1"`, but the refactored gate of
`src/ui/session.py owner_controls_ui` — which checks only
`session.owner_id == user_id` — is false, so the session's owner is shown
the member view. -/
theorem claim_C2_owner_gate_divergence :
    get_member_role (create_party_session_db dbEmpty (some "u1") "t" "w1" ["a", "b", "c"]).2
      (create_party_session_db dbEmpty (some "u1") "t" "w1" ["a", "b", "c"]).1 "u1" =
      some "owner" ∧
    (load_party_session (create_party_session_db dbEmpty (some "u1") "t" "w1" ["a", "b", "c"]).2
      (create_party_session_db dbEmpty (some "u1") "t" "w1" ["a", "b", "c"]).1).map
        (fun s => is_owner_gate_old (some "owner") s "u1") = some true ∧
    (load_party_session (create_party_session_db dbEmpty (some "u1") "t" "w1" ["a", "b", "c"]).2
      (create_party_session_db dbEmpty (some "u1") "t" "w1" ["a", "b", "c"]).1).map
        (fun s => is_owner_gate_ui s "u1") = some false := by
  decide

/-! ### Membership enrollment (claim C5) -/

/-- `ensure_member` is a no-op as soon as a membership row for the pair
exists. -/
theorem ensure_member_of_nonempty {db : DB} {sid : Nat} {uid : String}
    (h : member_rows db sid uid ≠ []) : ensure_member db sid uid = db := by
  unfold ensure_member
  rw [if_neg (by simpa [List.isEmpty_iff] using h)]

/-- `ensure_member` on a pair with no membership row creates exactly the one
`member` row. -/
theorem member_rows_ensure_of_empty {db : DB} {sid : Nat} {uid : String}
    (h : member_rows db sid uid = []) :
    member_rows (ensure_member db sid uid) sid uid = [⟨sid, uid, "member"⟩] := by
  unfold ensure_member
  rw [if_pos (by simpa [List.isEmpty_iff] using h)]
  unfold member_rows at h ⊢
  simp only [List.filter_append, h]
  simp

/-- Iterating `ensure_member` over a pair that is already a member never
changes the database. -/
theorem ensure_member_iter_of_nonempty {db : DB} {sid : Nat} {uid : String}
    (h : member_rows db sid uid ≠ []) :
    ∀ n, ensure_member_iter db sid uid n = db := by
  intro n
  induction n with
  | zero => rfl
  | succ n ih =>
    show ensure_member (ensure_member_iter db sid uid n) sid uid = db
    rw [ih]
    exact ensure_member_of_nonempty h

/-- Iterating `ensure_member` at least once over a pair with no membership row
leaves exactly the one `member` row. -/
theorem ensure_member_iter_of_empty {db : DB} {sid : Nat} {uid : String}
    (h : member_rows db sid uid = []) :
    ∀ n, member_rows (ensure_member_iter db sid uid (n + 1)) sid uid =
      [⟨sid, uid, "member"⟩] := by
  intro n
  induction n with
  | zero => exact member_rows_ensure_of_empty h
  | succ n ih =>
    show member_rows (ensure_member (ensure_member_iter db sid uid (n + 1)) sid uid)
      sid uid = [⟨sid, uid, "member"⟩]
    rw [ensure_member_of_nonempty (by rw [ih]; intro hc; cases hc)]
    exact ih

/-- C5: `ensure_member` is idempotent: starting from a store with at most one
membership row for the pair (the schema invariant), calling it `n ≥ 1` times
leaves exactly one membership row for that pair; and when a row with role
`owner` already exists for the pair, the calls change nothing at all — in
particular the `owner` role is never downgraded. -/
theorem claim_C5_ensure_member_idempotent (db : DB) (sid : Nat) (uid : String)
    (n : Nat) (hn : 1 ≤ n) (hinv : (member_rows db sid uid).length ≤ 1) :
    (member_rows (ensure_member_iter db sid uid n) sid uid).length = 1 ∧
    ((∃ m ∈ member_rows db sid uid, m.role = "owner") →
      ensure_member_iter db sid uid n = db) := by
  by_cases hempty : member_rows db sid uid = []
  · obtain ⟨m, rfl⟩ := Nat.exists_eq_add_of_le hn
    constructor
    · rw [Nat.add_comm] at *
      rw [ensure_member_iter_of_empty hempty m]
      rfl
    · rintro ⟨mem, hmem, _⟩
      rw [hempty] at hmem
      cases hmem
  · constructor
    · rw [ensure_member_iter_of_nonempty hempty n]
      have h1 : 1 ≤ (member_rows db sid uid).length :=
        List.length_pos.mpr hempty
      omega
    · intro _
      exact ensure_member_iter_of_nonempty hempty n

/-- C5 witness: the theorem applied three times over, first to a store holding
only the owner row of the pair, whose store is unchanged, then to the empty
store. -/
theorem claim_C5_witness :
    (member_rows (ensure_member_iter ⟨[], [⟨0, "u1", "owner"⟩], [], 1⟩ 0 "u1" 3)
      0 "u1").length = 1 ∧
    ensure_member_iter ⟨[], [⟨0, "u1", "owner"⟩], [], 1⟩ 0 "u1" 3 =
      ⟨[], [⟨0, "u1", "owner"⟩], [], 1⟩ ∧
    (member_rows (ensure_member_iter dbEmpty 0 "u2" 2) 0 "u2").length = 1 := by
  have h1 := claim_C5_ensure_member_idempotent ⟨[], [⟨0, "u1", "owner"⟩], [], 1⟩
    0 "u1" 3 (by decide) (by decide)
  have h2 := claim_C5_ensure_member_idempotent dbEmpty 0 "u2" 2 (by decide) (by decide)
  exact ⟨h1.1, h1.2 ⟨⟨0, "u1", "owner"⟩, by decide, rfl⟩, h2.1⟩

/-! ### Note round-trip (claim C6) -/

/-- Loading just after upserting returns exactly the upserted payload. -/
theorem load_upsert_note (db : DB) (sid : Nat) (uid wid vid : String)
    (P : NotePayload) :
    load_note (upsert_note db sid uid wid vid P) sid uid wid vid = some P := by
  unfold upsert_note
  by_cases hempty : (note_rows db sid uid wid vid).isEmpty
  · rw [if_pos hempty]
    unfold load_note note_rows
    unfold note_rows at hempty
    rw [List.isEmpty_iff] at hempty
    simp only [List.filter_append, hempty]
    simp [note_key_match]
  · rw [if_neg hempty]
    unfold load_note note_rows
    unfold note_rows at hempty
    rw [List.isEmpty_iff] at hempty
    rw [List.filter_map]
    have hpg : (note_key_match sid uid wid vid ∘ (fun n : NoteRow =>
        if note_key_match sid uid wid vid n then { n with payload := P } else n)) =
        note_key_match sid uid wid vid := by
      funext n
      cases hp : note_key_match sid uid wid vid n with
      | false => simp [hp]
      | true =>
        simp only [Function.comp_apply, hp, if_true]
        rw [← hp]
        rfl
    rw [hpg]
    rcases hfil : db.notes.filter (note_key_match sid uid wid vid) with _ | ⟨n0, t0⟩
    · exact absurd hfil hempty
    · have hn0 : note_key_match sid uid wid vid n0 = true :=
        (List.mem_filter.mp (hfil ▸ List.mem_cons_self n0 t0)).2
      simp [hn0]

/-- C6: the note upsert round-trips: saving payload `P` for a key then loading
the same key returns `P`; saving `P2` afterwards and loading returns exactly
`P2` — the whole record is replaced, never merged. -/
theorem claim_C6_note_roundtrip (db : DB) (sid : Nat) (uid wid vid : String)
    (P P2 : NotePayload) :
    load_note (upsert_note db sid uid wid vid P) sid uid wid vid = some P ∧
    load_note (upsert_note (upsert_note db sid uid wid vid P) sid uid wid vid P2)
      sid uid wid vid = some P2 :=
  ⟨load_upsert_note db sid uid wid vid P,
    load_upsert_note (upsert_note db sid uid wid vid P) sid uid wid vid P2⟩

/-! ### Note key injectivity (claim C10) -/

/-- A double colon in the tail would be a double colon in the whole list. -/
theorem hasDoubleColonL_tail {a : Char} {l : List Char}
    (h : hasDoubleColonL (a :: l) = false) : hasDoubleColonL l = false := by
  cases l with
  | nil => rfl
  | cons b t =>
    have h2 : ((a == ':' && b == ':') || hasDoubleColonL (b :: t)) = false := h
    exact (Bool.or_eq_false_iff.mp h2).2

/-- A list not ending in a colon has a tail not ending in a colon. -/
theorem endsColonL_tail {a : Char} {l : List Char}
    (h : endsColonL (a :: l) = false) : endsColonL l = false := by
  cases l with
  | nil => rfl
  | cons b t => exact h

/-- Key lemma for the amended C10: if the work-id parts are free of `"::"` and
do not end in `':'`, the decomposition around the `"::"` separator is
unique. -/
theorem note_key_inj_aux : ∀ (w1 w2 v1 v2 : List Char),
    hasDoubleColonL w1 = false → endsColonL w1 = false →
    hasDoubleColonL w2 = false → endsColonL w2 = false →
    w1 ++ ':' :: ':' :: v1 = w2 ++ ':' :: ':' :: v2 → w1 = w2 ∧ v1 = v2 := by
  intro w1
  induction w1 with
  | nil =>
    intro w2 v1 v2 _ _ hdc2 hec2 heq
    cases w2 with
    | nil =>
      simp only [List.nil_append, List.cons.injEq, true_and] at heq
      exact ⟨rfl, heq⟩
    | cons a w2t =>
      simp only [List.nil_append, List.cons_append, List.cons.injEq] at heq
      obtain ⟨ha, heq2⟩ := heq
      cases w2t with
      | nil =>
        rw [← ha] at hec2
        simp [endsColonL] at hec2
      | cons b w2t2 =>
        simp only [List.cons_append, List.cons.injEq] at heq2
        obtain ⟨hb, _⟩ := heq2
        rw [← ha, ← hb] at hdc2
        simp [hasDoubleColonL] at hdc2
  | cons x w1t ih =>
    intro w2 v1 v2 hdc1 hec1 hdc2 hec2 heq
    cases w2 with
    | nil =>
      simp only [List.cons_append, List.nil_append, List.cons.injEq] at heq
      obtain ⟨hx, heq2⟩ := heq
      cases w1t with
      | nil =>
        rw [hx] at hec1
        simp [endsColonL] at hec1
      | cons y w1t2 =>
        simp only [List.cons_append, List.cons.injEq] at heq2
        obtain ⟨hy, _⟩ := heq2
        rw [hx, hy] at hdc1
        simp [hasDoubleColonL] at hdc1
    | cons y w2t =>
      simp only [List.cons_append, List.cons.injEq] at heq
      obtain ⟨hxy, heq2⟩ := heq
      obtain ⟨he1, he2⟩ := ih w2t v1 v2 (hasDoubleColonL_tail hdc1)
        (endsColonL_tail hec1) (hasDoubleColonL_tail hdc2)
        (endsColonL_tail hec2) heq2
      exact ⟨by rw [hxy, he1], he2⟩

/-- C10 (amended): `note_key_for` is injective under the precondition that
the work ids are free of the substring `"::"` and do not end with the
character `':'` — the `"::"`-freedom of the four parts alone is not enough
(see the counterexample). -/
theorem claim_C10_note_key_inj (w1 v1 w2 v2 : String)
    (h1 : has_double_colon w1 = false) (h2 : ends_with_colon w1 = false)
    (h3 : has_double_colon w2 = false) (h4 : ends_with_colon w2 = false)
    (heq : note_key_for w1 v1 = note_key_for w2 v2) : w1 = w2 ∧ v1 = v2 := by
  unfold note_key_for at heq
  have hdata : w1.data ++ ':' :: ':' :: v1.data = w2.data ++ ':' :: ':' :: v2.data := by
    have hd := congrArg String.data heq
    simpa [String.data_append] using hd
  obtain ⟨hw, hv⟩ := note_key_inj_aux w1.data w2.data v1.data v2.data h1 h2 h3 h4 hdata
  exact ⟨String.ext hw, String.ext hv⟩

/-- C10 counterexample: the pairs `("a", ":x")` and `("a:", "x")` are distinct,
all four ids are free of the substring `"::"`, yet both produce the key
`"a:::x"` — so `"::"`-freedom does not make `note_key_for` injective. -/
theorem claim_C10_counterexample :
    has_double_colon "a" = false ∧ has_double_colon ":x" = false ∧
    has_double_colon "a:" = false ∧ has_double_colon "x" = false ∧
    (("a", ":x") : String × String) ≠ ("a:", "x") ∧
    note_key_for "a" ":x" = note_key_for "a:" "x" := by decide

/-- C10 witness: the amended theorem applied at colliding concrete keys with
colon-free work ids. -/
theorem claim_C10_witness : "w1" = "w1" ∧ "tA" = "tA" :=
  claim_C10_note_key_inj "w1" "tA" "w1" "tA" (by decide) (by decide) (by decide)
    (by decide) rfl

end BlindAria
